import Mathlib

set_option maxHeartbeats 1000000

namespace PlanReview

/-!
Shallow embedding of the plan-review scripts.

Part 1 embeds scripts/extract_sections.py (the Segmenter): line splitting,
title and outline extraction, the heading-level fallback cascade, the TOC
filter, the context block, and filename sanitization.

Strings are modelled as Lean `String`s (lists of unicode scalars); the
embedding treats a line feed as the sole line separator, whitespace as
`Char.isWhitespace`, and lowercasing as `Char.toLower`, matching the
documents the scripts process.
-/

/-- Boolean test that the list `p` is a prefix of `l` (models str.startswith). -/
def hasPre : List Char → List Char → Bool
  | [], _ => true
  | _ :: _, [] => false
  | a :: as, b :: bs => a == b && hasPre as bs

/-- String wrapper for `hasPre`. -/
def hasPreS (p s : String) : Bool := hasPre p.data s.data

/-- Boolean substring test on char lists (models the Python `in` operator on str). -/
def containsChars (pat : List Char) : List Char → Bool
  | [] => pat.isEmpty
  | c :: cs => hasPre pat (c :: cs) || containsChars pat cs

/-- String wrapper for `containsChars`. -/
def containsStr (pat s : String) : Bool := containsChars pat.data s.data

/-- Helper for `pyLines`: accumulate the current line (reversed) while scanning. -/
def pyLinesGo : List Char → List Char → List (List Char)
  | [], acc => [acc.reverse]
  | c :: cs, acc =>
    if c = '\n' then
      match cs with
      | [] => [acc.reverse]
      | _ :: _ => acc.reverse :: pyLinesGo cs []
    else pyLinesGo cs (c :: acc)

/-- Models Python str.splitlines: split on line feeds, no trailing empty line
for a terminal line feed, and the empty string has no lines. -/
def pyLines (s : String) : List String :=
  match s.data with
  | [] => []
  | cs => (pyLinesGo cs []).map String.mk

/-- Strip trailing whitespace from a char list. -/
def rstripWs (cs : List Char) : List Char :=
  (cs.reverse.dropWhile Char.isWhitespace).reverse

/-- Strip leading and trailing whitespace (models Python str.strip()). -/
def trimWs (cs : List Char) : List Char :=
  rstripWs (cs.dropWhile Char.isWhitespace)

/-- Join a list of lines with line feeds (models "\n".join). -/
def joinNl (ls : List String) : String :=
  String.mk (List.intercalate ['\n'] (ls.map String.data))

/-- One extracted section: heading text and content. -/
structure Sect where
  name : String
  content : String
deriving DecidableEq

/-- Models the title scan of extract_sections: the first line starting with
"# " but not "## ", else the fixed placeholder. -/
def findTitle : List String → String
  | [] => "# Untitled Document"
  | l :: ls =>
    if hasPreS "# " l && ! hasPreS "## " l then l else findTitle ls

/-- Models the regex r"^##\s+(table of contents|toc|contents)\s*$" with
IGNORECASE applied to one line. -/
def isTocHeading (l : String) : Bool :=
  match l.data with
  | '#' :: '#' :: rest =>
    let ws := rest.takeWhile Char.isWhitespace
    let body := rest.dropWhile Char.isWhitespace
    ! ws.isEmpty && (
      let core := String.mk ((rstripWs body).map Char.toLower)
      core = "table of contents" || core = "toc" || core = "contents")
  | _ => false

/-- Models the TOC collection loop of extract_sections: once a TOC heading is
seen, collect lines until the next second-level heading. -/
def collectToc : List String → Bool → List String
  | [], _ => []
  | l :: ls, inToc =>
    if isTocHeading l then collectToc ls true
    else if inToc then
      if hasPreS "## " l then []
      else l :: collectToc ls true
    else collectToc ls false

/-- Models the section-name filter regex r"(table of contents|toc|contents)$"
with IGNORECASE (anchored on both sides, so equality up to case). -/
def isTocName (n : String) : Bool :=
  let low := String.mk (n.data.map Char.toLower)
  low = "table of contents" || low = "toc" || low = "contents"

/-- The heading marker for a splitting level: level many hashes and a space. -/
def headingMarker (level : Nat) : String :=
  String.mk (List.replicate level '#' ++ [' '])

/-- Close out an in-progress section: join its accumulated lines. -/
def finishSec (c : String × List String) : Sect :=
  { name := c.1, content := joinNl c.2.reverse }

/-- Models the accumulator loop of _split_on_heading, including the skip of a
level-1 heading line identical to the title. -/
def splitGo (mk : String) (level : Nat) (title : String) :
    List String → Option (String × List String) → List Sect
  | [], none => []
  | [], some c => [finishSec c]
  | l :: ls, cur =>
    if hasPreS mk l then
      if level = 1 ∧ l = title then splitGo mk level title ls cur
      else
        let headingText := String.mk (trimWs (l.data.drop mk.data.length))
        match cur with
        | none => splitGo mk level title ls (some (headingText, [l]))
        | some c => finishSec c :: splitGo mk level title ls (some (headingText, [l]))
    else
      match cur with
      | none => splitGo mk level title ls none
      | some (nm, acc) => splitGo mk level title ls (some (nm, l :: acc))

/-- Models _split_on_heading of extract_sections.py. -/
def splitOnHeading (lines : List String) (level : Nat) (title : String) : List Sect :=
  splitGo (headingMarker level) level title lines none

/-- Spec-side splitter without the title exception, used to state what the
title skip amounts to. -/
def splitGoNT (mk : String) : List String → Option (String × List String) → List Sect
  | [], none => []
  | [], some c => [finishSec c]
  | l :: ls, cur =>
    if hasPreS mk l then
      let headingText := String.mk (trimWs (l.data.drop mk.data.length))
      match cur with
      | none => splitGoNT mk ls (some (headingText, [l]))
      | some c => finishSec c :: splitGoNT mk ls (some (headingText, [l]))
    else
      match cur with
      | none => splitGoNT mk ls none
      | some (nm, acc) => splitGoNT mk ls (some (nm, l :: acc))

/-- Spec-side plain split on a heading level with no title exception. -/
def splitPlain (lines : List String) (level : Nat) : List Sect :=
  splitGoNT (headingMarker level) lines none

/-- The shared context block of extract_sections: title, optional outline
under a "Document Structure" heading, and the fixed separator banner. -/
def contextFor (content : String) : String :=
  let lines := pyLines content
  let title := findTitle lines
  let tocLines := collectToc lines false
  title ++ "\n\n" ++
    (if tocLines.isEmpty then ""
     else "## Document Structure\n" ++ joinNl tocLines ++ "\n\n") ++
    "---\n*The following is one section from the above document, extracted for focused review.*\n---\n\n"

/-- The heading-level fallback cascade of extract_sections, before the TOC
filter and the context prefix: H2, then H3, then H1, then the synthetic
full-document section. -/
def sectionsRaw (content : String) : List Sect :=
  let lines := pyLines content
  let title := findTitle lines
  let sections0 := splitOnHeading lines 2 title
  let sections1 := if sections0.isEmpty then splitOnHeading lines 3 title else sections0
  let sections2 := if sections1.isEmpty then splitOnHeading lines 1 title else sections1
  if sections2.isEmpty then [{ name := "full-document", content := content }] else sections2

/-- Models extract_sections of extract_sections.py: cascade, TOC-name filter,
then the context block prefixed to every remaining section. -/
def extract_sections (content : String) : List Sect :=
  ((sectionsRaw content).filter (fun s => ! isTocName s.name)).map
    (fun s => { s with content := contextFor content ++ s.content })

/-- Membership of a char in the class [a-z0-9]. -/
def lowerSafe (c : Char) : Bool :=
  ('a' ≤ c && c ≤ 'z') || ('0' ≤ c && c ≤ '9')

/-- Helper for `subDash`: the flag records whether the scan is inside a run
of characters outside [a-z0-9] whose dash was already emitted. -/
def subDashGo : Bool → List Char → List Char
  | _, [] => []
  | inBad, c :: cs =>
    if lowerSafe c then c :: subDashGo false cs
    else if inBad then subDashGo true cs
    else '-' :: subDashGo true cs

/-- Models re.sub(r"[^a-z0-9]+", "-", s) on an already lowercased string:
each maximal run of characters outside [a-z0-9] becomes one dash. -/
def subDash (l : List Char) : List Char := subDashGo false l

/-- Drop trailing dashes. -/
def dropTrail (l : List Char) : List Char :=
  (l.reverse.dropWhile (fun c => c = '-')).reverse

/-- Models str.strip("-"): drop leading and trailing dashes. -/
def stripDash (l : List Char) : List Char :=
  dropTrail (l.dropWhile (fun c => c = '-'))

/-- Models sanitize_filename of extract_sections.py. -/
def sanitize_filename (name : String) : String :=
  String.mk (stripDash (subDash (name.data.map Char.toLower)))

/-- Helper for `specTokens`: the accumulator holds the current run reversed. -/
def specTokensGo : Option (List Char) → List Char → List (List Char)
  | none, [] => []
  | some t, [] => [t.reverse]
  | none, c :: cs =>
    if lowerSafe c then specTokensGo (some [c]) cs else specTokensGo none cs
  | some t, c :: cs =>
    if lowerSafe c then specTokensGo (some (c :: t)) cs
    else t.reverse :: specTokensGo none cs

/-- Spec-side tokenizer: the maximal runs of [a-z0-9] characters, in order. -/
def specTokens (l : List Char) : List (List Char) := specTokensGo none l

/-- Spec-side join of tokens with single dash separators. -/
def joinDash : List (List Char) → List Char
  | [] => []
  | [t] => t
  | t :: ts => t ++ '-' :: joinDash ts

/-- Spec-side sanitization as the claim words it: lowercase, collapse every
maximal run outside [a-z0-9] to a single dash separator, trim separators. -/
def sanitizeSpec (name : String) : String :=
  String.mk (joinDash (specTokens (name.data.map Char.toLower)))

/-- Models the f-string 02d format for the order index. -/
def pyFmt02 (i : Nat) : String :=
  if i < 10 then "0" ++ toString i else toString i

/-- Models the section filename built in main: order prefix, dash, sanitized
name, extension. -/
def outFilename (i : Nat) (name : String) : String :=
  pyFmt02 i ++ "-" ++ sanitize_filename name ++ ".md"

/-!
Part 2 embeds the convergence loop of scripts/iterate_section.py (main).

The reviewer invocation (run_codex), the revision reader, the interactive
keystroke source, and the clock are the injected capabilities the spec
names as external collaborators; they are collected in `Env`. The loop body
is transcribed from main's for-loop: round 1 invokes fresh and aborts on
timeout; later rounds optionally wait for a go/stop keystroke, require the
revised file, invoke with session continuation, fall back once to a fresh
invocation when that produced no output, abort when the fallback times out,
persist the round artifact, and stop early on the approval phrase.

The state additionally records two observation logs that the file system
and console of the real script would show: `log` (round number and raw
reviewer output, in execution order) and `waits` (rounds at which the
interactive pause happened).
-/

/-- Result of one reviewer invocation: a timeout or its (stripped) output. -/
inductive InvokeResult
  | timeout
  | output (s : String)
deriving DecidableEq

/-- The injected capabilities and fixed inputs of one loop run. -/
structure Env where
  reviewPrompt : String
  sectionContent : String
  sectionBasename : String
  reviewType : String
  now : Nat → String
  invoke : Nat → String → Bool → InvokeResult
  readRevised : Nat → Option String
  userInput : Nat → Option String

/-- The command-line configuration of one loop run. -/
structure Config where
  maxRounds : Nat
  singleRound : Option Nat
  interactive : Bool
deriving DecidableEq

/-- The mutable state of main's loop, plus the two observation logs. -/
structure St where
  prevIssues : Nat
  lastResult : String
  files : List (Nat × String)
  log : List (Nat × String)
  waits : List Nat
deriving DecidableEq

/-- Outcome of one round body: process exit, loop break, or next round. -/
inductive StepRes
  | fatal (st : St)
  | brk (st : St)
  | cont (st : St)
deriving DecidableEq

/-- The approval phrase searched for in reviewer output. -/
def approvalPhrase : String := "SECTION APPROVED"

/-- Models count_issues: occurrences of the two severity glyphs. -/
def count_issues (text : String) : Nat :=
  (text.data.filter (fun c => c == '🔴' || c == '🟡')).length

/-- The round-1 prompt built in main from the review instructions and the
original section content. -/
def buildPrompt1 (reviewPrompt sectionContent : String) : String :=
  reviewPrompt ++
  "\n\n---\n\n## Document Section to Review\n\n" ++
  sectionContent ++
  "\n\n---\n\nAfter your review, I will revise the section and show you the updated version. You will then evaluate whether your concerns were addressed. We may go through multiple rounds of this."

/-- The resume prompt built in main for rounds after the first. -/
def buildResumePrompt (revised : String) : String :=
  "Here is the revised version of the section, updated based on your previous feedback.\n\nPlease evaluate:\n1. Which of your previous findings have been addressed? Mark each as RESOLVED or UNRESOLVED.\n2. Did the revisions introduce any NEW issues?\n3. Are there any remaining critical or warning items?\n\nUse the same severity format (🔴 🟡 🔵) for any remaining or new issues.\n\nIf all critical and warning issues are resolved, state: \"✅ SECTION APPROVED — no critical or warning issues remain.\"\n\n---\n\n## Revised Section\n\n" ++
  revised

/-- The artifact header written for round 1. -/
def round1Header (env : Env) : String :=
  "# Iteration Round 1: Initial Review\n**Section**: " ++ env.sectionBasename ++
  "\n**Review type**: " ++ env.reviewType ++
  "\n**Date**: " ++ env.now 1 ++ "\n\n"

/-- The artifact header written for a later round. -/
def roundHeaderN (env : Env) (n : Nat) : String :=
  "# Iteration Round " ++ toString n ++ "\n**Date**: " ++ env.now n ++ "\n\n"

/-- Write a round file into the directory listing: keyed by round number,
kept in ascending order, replacing any previous file of that round. -/
def putFile : List (Nat × String) → Nat → String → List (Nat × String)
  | [], n, a => [(n, a)]
  | (m, b) :: rest, n, a =>
    if n < m then (n, a) :: (m, b) :: rest
    else if n = m then (n, a) :: rest
    else (m, b) :: putFile rest n a

/-- The round-1 branch of main's loop body. -/
def round1Step (env : Env) (st : St) : StepRes :=
  match env.invoke 1 (buildPrompt1 env.reviewPrompt env.sectionContent) false with
  | .timeout => .fatal st
  | .output result =>
    let artifact := round1Header env ++ result ++ "\n"
    .cont { st with
      prevIssues := count_issues result
      lastResult := result
      files := putFile st.files 1 artifact
      log := st.log ++ [(1, result)] }

/-- Record a later round's output, then break on approval or continue. -/
def recordRound (env : Env) (n : Nat) (result : String) (st : St) : StepRes :=
  let artifact := roundHeaderN env n ++ result ++ "\n"
  let st1 := { st with
    files := putFile st.files n artifact
    log := st.log ++ [(n, result)]
    lastResult := result }
  if containsStr approvalPhrase result then .brk st1
  else .cont { st1 with prevIssues := count_issues result }

/-- The later-round body after the interactive wait: require the revised
file, invoke with continuation, fall back once to a fresh invocation when
that produced no output, abort when the fallback times out. -/
def laterBody (env : Env) (n : Nat) (st : St) : StepRes :=
  match env.readRevised n with
  | none => .fatal st
  | some revised =>
    let rPrompt := buildResumePrompt revised
    let r0 := match env.invoke n rPrompt true with
      | .timeout => ""
      | .output s => s
    match (if r0 = "" then env.invoke n rPrompt false else .output r0) with
    | .timeout => .fatal st
    | .output result => recordRound env n result st

/-- Did the interactive keystroke ask to stop: q or quit after strip and
lowercase, with end of input treated as q. -/
def uiQuit (o : Option String) : Bool :=
  let ui := String.mk ((trimWs (o.getD "q").data).map Char.toLower)
  ui == "q" || ui == "quit"

/-- A later round of main's loop body: the interactive wait (stop on q,
quit, or end of input), then the re-review. -/
def laterStep (env : Env) (cfg : Config) (n : Nat) (st : St) : StepRes :=
  if cfg.interactive then
    if uiQuit (env.userInput n) then .brk { st with waits := st.waits ++ [n] }
    else laterBody env n { st with waits := st.waits ++ [n] }
  else laterBody env n st

/-- One iteration of main's for-loop over round numbers. -/
def stepRound (env : Env) (cfg : Config) (n : Nat) (st : St) : StepRes :=
  if n = 1 then round1Step env st else laterStep env cfg n st

/-- Outcome of a whole run: process exit before the summary, or loop end. -/
inductive RunRes
  | aborted (st : St)
  | finished (st : St)
deriving DecidableEq

/-- Main's for-loop over the list of round numbers to run. -/
def runFrom (env : Env) (cfg : Config) : List Nat → St → RunRes
  | [], st => .finished st
  | n :: rest, st =>
    match stepRound env cfg n st with
    | .fatal st1 => .aborted st1
    | .brk st1 => .finished st1
    | .cont st1 => runFrom env cfg rest st1

/-- The round numbers main runs: the explicit single round, or 1..maxRounds. -/
def roundsToRun (cfg : Config) : List Nat :=
  match cfg.singleRound with
  | some n => [n]
  | none => List.range' 1 cfg.maxRounds

/-- The summary artifact: approval flag from the last reviewer output, and
the issue count of every persisted round file. -/
structure Summary where
  approved : Bool
  records : List (Nat × Nat)
deriving DecidableEq

/-- Build the summary exactly as main does after the loop. -/
def mkSummary (st : St) : Summary :=
  { approved := containsStr approvalPhrase st.lastResult
    records := st.files.map (fun p => (p.1, count_issues p.2)) }

/-- Outcome of one whole invocation of the script. -/
inductive MainRes
  | aborted (st : St)
  | completed (st : St) (summary : Summary)
deriving DecidableEq

/-- The state at loop entry: prior round artifacts are cleared unless the
run restarts at an explicit round after the first. `initFiles` is the
directory content left by earlier invocations. -/
def initSt (cfg : Config) (initFiles : List (Nat × String)) : St :=
  { prevIssues := 0
    lastResult := ""
    files := match cfg.singleRound with
      | none => []
      | some 1 => []
      | some _ => initFiles
    log := []
    waits := [] }

/-- Models main of iterate_section.py after argument checks: clear prior
round artifacts unless restarted at an explicit later round, run the
selected rounds, and write the summary when the loop was not exited by a
timeout. -/
def mainRun (env : Env) (cfg : Config) (initFiles : List (Nat × String)) : MainRes :=
  match runFrom env cfg (roundsToRun cfg) (initSt cfg initFiles) with
  | .aborted st => .aborted st
  | .finished st => .completed st (mkSummary st)

/-- Observation: did the run reach the summary. -/
def resIsCompleted : MainRes → Bool
  | .aborted _ => false
  | .completed _ _ => true

/-- Observation: the execution log of (round, reviewer output) pairs. -/
def resLog : MainRes → List (Nat × String)
  | .aborted st => st.log
  | .completed st _ => st.log

/-- Observation: the rounds at which the interactive pause happened. -/
def resWaits : MainRes → List Nat
  | .aborted st => st.waits
  | .completed st _ => st.waits

/-- Observation: the summary's approval flag, when a summary was written. -/
def resApproved : MainRes → Option Bool
  | .aborted _ => none
  | .completed _ sm => some sm.approved

/-- Observation: the persisted round files. -/
def resFiles : MainRes → List (Nat × String)
  | .aborted st => st.files
  | .completed st _ => st.files


/-- A reviewer stub that emits the approval phrase already in round 1 and a
new issue in round 2. -/
def envApproveRound1 : Env :=
  { reviewPrompt := "p", sectionContent := "s", sectionBasename := "b", reviewType := "a"
    now := fun _ => "t"
    invoke := fun n _ _ =>
      if n = 1 then .output "✅ SECTION APPROVED — no critical or warning issues remain."
      else .output "🔴 new issue"
    readRevised := fun _ => some "rev"
    userInput := fun _ => some "" }

/-- Two full rounds, non-interactive. -/
def cfgTwoRounds : Config := { maxRounds := 2, singleRound := none, interactive := false }


/-- A reviewer stub whose continuation and fallback invocations both time
out in round 2. -/
def envDoubleTimeout : Env :=
  { reviewPrompt := "p", sectionContent := "s", sectionBasename := "b", reviewType := "a"
    now := fun _ => "t"
    invoke := fun n _ _ => if n = 1 then .output "🔴 x" else .timeout
    readRevised := fun _ => some "rev"
    userInput := fun _ => some "" }


/-- A plain reviewer stub used for the single-round-mode scenario. -/
def envPlain : Env :=
  { reviewPrompt := "p", sectionContent := "s", sectionBasename := "b", reviewType := "a"
    now := fun _ => "t"
    invoke := fun _ _ _ => .output "🟡 w"
    readRevised := fun _ => some "rev"
    userInput := fun _ => some "" }

/-- Single-round external-control mode for round 2 with interactive mode on. -/
def cfgSingle2Interactive : Config := { maxRounds := 3, singleRound := some 2, interactive := true }


/-- A document whose only second-level heading is the TOC heading. -/
def tocOnlyDoc : String := "## Table of Contents\nsome entry\n"

/-- The concrete segmentation scenario document of the spec. -/
def scenarioDoc : String := "# Title\n## A\nbody-a\n## B\nbody-b\n"

/-- A document that reaches the level-1 fallback of the cascade. -/
def h1doc : String := "# My Title\nintro\n# Other\nbody\n"

/-- Claim C1 (counterexample): on a non-empty document whose only
second-level heading is the TOC heading, extract_sections returns the
empty list, so segmentation is not total as claimed. -/
theorem C1_totality_counterexample :
    tocOnlyDoc ≠ "" ∧ extract_sections tocOnlyDoc = [] := by decide

/-- Claim C1 (amended): the fallback cascade itself always yields at least
one section, and the final output of extract_sections is empty exactly when
every section of the cascade is TOC-named; in particular the output can be
empty when the only heading at the chosen level is a TOC-named heading. -/
theorem C1_totality_amended (content : String) :
    sectionsRaw content ≠ [] ∧
    (extract_sections content = [] ↔ ∀ s ∈ sectionsRaw content, isTocName s.name = true) := by
  constructor
  · simp only [sectionsRaw]
    repeat' split
    all_goals simp_all [List.isEmpty_iff]
  · unfold extract_sections
    simp [List.map_eq_nil_iff, List.filter_eq_nil_iff]

/-- Claim C1 (amended, witness): the amended characterization evaluated on
the TOC-only document. -/
theorem C1_totality_amended_witness :
    sectionsRaw tocOnlyDoc ≠ [] ∧
    (extract_sections tocOnlyDoc = [] ↔
      ∀ s ∈ sectionsRaw tocOnlyDoc, isTocName s.name = true) :=
  C1_totality_amended tocOnlyDoc

/-- Claim C7: no section whose name case-insensitively equals a TOC alias
ever appears in the output of extract_sections. -/
theorem C7_toc_exclusion (content : String) :
    (extract_sections content).all (fun s => ! isTocName s.name) = true := by
  simp only [extract_sections, List.all_eq_true, List.mem_map, List.mem_filter]
  rintro s ⟨t, ⟨_, hp⟩, rfl⟩
  simpa using hp

/-- Claim C8: the concrete scenario document yields exactly the sections A
and B in that order, each content prefixed with the one shared context
block, and that block contains the title line. -/
theorem C8_concrete_scenario :
    extract_sections scenarioDoc =
      [⟨"A", contextFor scenarioDoc ++ "## A\nbody-a"⟩,
       ⟨"B", contextFor scenarioDoc ++ "## B\nbody-b"⟩] ∧
    (extract_sections scenarioDoc).map Sect.name = ["A", "B"] ∧
    containsStr "# Title\n" (contextFor scenarioDoc) = true := by decide

/-- The title skip in level-1 splitting amounts to deleting, before a plain
split, every line that is a level-1 heading identical to the title. -/
theorem splitGo_one_filter (title : String) :
    ∀ (ls : List String) (cur : Option (String × List String)),
      splitGo (headingMarker 1) 1 title ls cur =
      splitGoNT (headingMarker 1)
        (ls.filter (fun l => ! (hasPreS (headingMarker 1) l && decide (l = title)))) cur := by
  intro ls
  induction ls with
  | nil => intro cur; cases cur <;> rfl
  | cons l ls ih =>
    intro cur
    by_cases hp : hasPreS (headingMarker 1) l = true
    · by_cases ht : l = title
      · subst ht
        cases cur <;> simp [splitGo, splitGoNT, hp, List.filter_cons, ih]
      · cases cur <;> simp [splitGo, splitGoNT, hp, ht, List.filter_cons, ih]
    · simp only [Bool.not_eq_true] at hp
      cases cur <;> simp [splitGo, splitGoNT, hp, List.filter_cons, ih]

/-- Claim C5: the heading-level fallback cascade: level 2 first, then level
3, then level 1 where a level-1 heading line identical to the title is not
a split point, and finally the synthetic full-document section. -/
theorem C5_fallback_cascade (content : String) :
    (splitOnHeading (pyLines content) 2 (findTitle (pyLines content)) ≠ [] →
      sectionsRaw content = splitOnHeading (pyLines content) 2 (findTitle (pyLines content))) ∧
    (splitOnHeading (pyLines content) 2 (findTitle (pyLines content)) = [] →
      splitOnHeading (pyLines content) 3 (findTitle (pyLines content)) ≠ [] →
      sectionsRaw content = splitOnHeading (pyLines content) 3 (findTitle (pyLines content))) ∧
    (splitOnHeading (pyLines content) 2 (findTitle (pyLines content)) = [] →
      splitOnHeading (pyLines content) 3 (findTitle (pyLines content)) = [] →
      splitOnHeading (pyLines content) 1 (findTitle (pyLines content)) ≠ [] →
      sectionsRaw content = splitOnHeading (pyLines content) 1 (findTitle (pyLines content))) ∧
    (splitOnHeading (pyLines content) 2 (findTitle (pyLines content)) = [] →
      splitOnHeading (pyLines content) 3 (findTitle (pyLines content)) = [] →
      splitOnHeading (pyLines content) 1 (findTitle (pyLines content)) = [] →
      sectionsRaw content = [{ name := "full-document", content := content }]) ∧
    (∀ (lines : List String) (title : String),
      splitOnHeading lines 1 title =
      splitPlain (lines.filter (fun l => ! (hasPreS (headingMarker 1) l && decide (l = title)))) 1) := by
  refine ⟨?_, ?_, ?_, ?_, ?_⟩
  · intro h2
    unfold sectionsRaw
    simp [List.isEmpty_iff, h2]
  · intro h2 h3
    unfold sectionsRaw
    simp [List.isEmpty_iff, h2, h3]
  · intro h2 h3 h1
    unfold sectionsRaw
    simp [List.isEmpty_iff, h2, h3, h1]
  · intro h2 h3 h1
    unfold sectionsRaw
    simp [List.isEmpty_iff, h2, h3, h1]
  · intro lines title
    exact splitGo_one_filter title lines none

/-- Claim C5 (witness): a document with only level-1 headings reaches the
level-1 branch of the cascade. -/
theorem C5_fallback_cascade_witness :
    (splitOnHeading (pyLines h1doc) 2 (findTitle (pyLines h1doc)) = [] ∧
     splitOnHeading (pyLines h1doc) 3 (findTitle (pyLines h1doc)) = [] ∧
     splitOnHeading (pyLines h1doc) 1 (findTitle (pyLines h1doc)) ≠ []) ∧
    sectionsRaw h1doc = splitOnHeading (pyLines h1doc) 1 (findTitle (pyLines h1doc)) :=
  ⟨⟨by decide, by decide, by decide⟩,
   (C5_fallback_cascade h1doc).2.2.1 (by decide) (by decide) (by decide)⟩

/-! Lemmas relating sanitize_filename (regex substitution then strip) to the
token-join formulation that follows the claim's words. -/

/-- Dropping by a predicate never lengthens a list. -/
theorem lenDropWhileLe (p : Char → Bool) (l : List Char) :
    (l.dropWhile p).length ≤ l.length := by
  induction l with
  | nil => simp
  | cons c cs ih =>
    by_cases h : p c = true
    · simp only [List.dropWhile_cons, h, if_true]
      exact Nat.le_succ_of_le ih
    · simp [List.dropWhile_cons, h]

/-- Inside a non-safe run, the dash was already emitted, so the scan equals
a fresh scan of the list with that run dropped. -/
theorem subDashGo_true_eq (cs : List Char) :
    subDashGo true cs = subDashGo false (cs.dropWhile (fun d => ! lowerSafe d)) := by
  induction cs with
  | nil => rfl
  | cons c cs ih =>
    by_cases h : lowerSafe c = true
    · simp [subDashGo, h, List.dropWhile_cons]
    · simp only [Bool.not_eq_true] at h
      simp [subDashGo, h, List.dropWhile_cons, ih]

/-- The regex substitution keeps a safe character. -/
theorem subDash_cons_safe {c : Char} (cs : List Char) (h : lowerSafe c = true) :
    subDash (c :: cs) = c :: subDash cs := by
  simp [subDash, subDashGo, h]

/-- The regex substitution turns a maximal non-safe run into one dash. -/
theorem subDash_cons_bad {c : Char} (cs : List Char) (h : lowerSafe c = false) :
    subDash (c :: cs) = '-' :: subDash (cs.dropWhile (fun d => ! lowerSafe d)) := by
  simp [subDash, subDashGo, h, subDashGo_true_eq]

/-- The tokenizer with an open run pending emits that run extended by the
next maximal safe run. -/
theorem specTokensGo_some (cs : List Char) :
    ∀ t : List Char,
      specTokensGo (some t) cs =
        (t.reverse ++ cs.takeWhile lowerSafe) :: specTokensGo none (cs.dropWhile lowerSafe) := by
  induction cs with
  | nil => intro t; simp [specTokensGo]
  | cons c cs ih =>
    intro t
    by_cases h : lowerSafe c = true
    · simp [specTokensGo, h, List.takeWhile_cons, List.dropWhile_cons, ih]
    · simp only [Bool.not_eq_true] at h
      simp [specTokensGo, h, List.takeWhile_cons, List.dropWhile_cons]

/-- Tokenizer equation at a safe head. -/
theorem specTokens_cons_safe {c : Char} (cs : List Char) (h : lowerSafe c = true) :
    specTokens (c :: cs) =
      (c :: cs.takeWhile lowerSafe) :: specTokens (cs.dropWhile lowerSafe) := by
  simp [specTokens, specTokensGo, h, specTokensGo_some]

/-- Tokenizer equation at a non-safe head. -/
theorem specTokens_cons_bad {c : Char} (cs : List Char) (h : lowerSafe c = false) :
    specTokens (c :: cs) = specTokens cs := by
  simp [specTokens, specTokensGo, h]

/-- The head of a list, when present, is safe. -/
def headSafe (l : List Char) : Prop :=
  ∀ c, l.head? = some c → lowerSafe c = true

/-- After dropping the non-safe run, the head is safe. -/
theorem headSafe_dropWhile_bad (l : List Char) :
    headSafe (l.dropWhile (fun d => ! lowerSafe d)) := by
  induction l with
  | nil => intro c h; simp at h
  | cons c cs ih =>
    by_cases h : lowerSafe c = true
    · intro x hx
      simp [List.dropWhile_cons, h] at hx
      exact hx ▸ h
    · simp only [Bool.not_eq_true] at h
      simpa [List.dropWhile_cons, h] using ih

/-- After dropping the safe run, the head is not safe. -/
theorem headBad_dropWhile_safe (l : List Char) :
    ∀ c, (l.dropWhile lowerSafe).head? = some c → lowerSafe c = false := by
  induction l with
  | nil => intro c h; simp at h
  | cons c cs ih =>
    by_cases h : lowerSafe c = true
    · simpa [List.dropWhile_cons, h] using ih
    · simp only [Bool.not_eq_true] at h
      intro x hx
      simp [List.dropWhile_cons, h] at hx
      exact hx ▸ h

/-- The tokenizer ignores a leading non-safe run. -/
theorem specTokens_dropWhile_bad (l : List Char) :
    specTokens (l.dropWhile (fun d => ! lowerSafe d)) = specTokens l := by
  induction l with
  | nil => rfl
  | cons c cs ih =>
    by_cases h : lowerSafe c = true
    · simp [List.dropWhile_cons, h]
    · simp only [Bool.not_eq_true] at h
      simp [List.dropWhile_cons, h, ih, specTokens_cons_bad _ h]

/-- A safe character is not the dash. -/
theorem safe_ne_dash {c : Char} (h : lowerSafe c = true) : c ≠ '-' := by
  intro hc; subst hc; exact absurd h (by decide)

/-- The regex substitution passes a safe run through unchanged. -/
theorem subDash_safe_append (run : List Char) (rest : List Char)
    (h : ∀ c ∈ run, lowerSafe c = true) :
    subDash (run ++ rest) = run ++ subDash rest := by
  induction run with
  | nil => rfl
  | cons c cs ih =>
    have hc := h c (by simp)
    simp only [List.cons_append]
    rw [subDash_cons_safe _ hc, ih (fun x hx => h x (by simp [hx]))]

/-- Dropping dashes does nothing when no element is a dash. -/
theorem dropWhile_dash_eq_self (m : List Char) (h : ∀ c ∈ m, c ≠ '-') :
    m.dropWhile (fun c => c = '-') = m := by
  cases m with
  | nil => rfl
  | cons c cs => simp [List.dropWhile_cons, h c (by simp)]

/-- Trailing-dash stripping does nothing when no element is a dash. -/
theorem dropTrail_no_dash (l : List Char) (h : ∀ c ∈ l, c ≠ '-') :
    dropTrail l = l := by
  unfold dropTrail
  rw [dropWhile_dash_eq_self _ (fun c hc => h c (List.mem_reverse.mp hc))]
  exact List.reverse_reverse l

/-- Appending to a list whose drop is non-empty drops within the first part. -/
theorem dropWhile_append_ne_nil (p : Char → Bool) (a b : List Char)
    (h : a.dropWhile p ≠ []) :
    (a ++ b).dropWhile p = a.dropWhile p ++ b := by
  induction a with
  | nil => exact absurd rfl h
  | cons c cs ih =>
    by_cases hc : p c = true
    · have h2 : cs.dropWhile p ≠ [] := by
        simpa [List.dropWhile_cons, hc] using h
      simp [List.dropWhile_cons, hc, ih h2]
    · simp [List.dropWhile_cons, hc]

/-- Trailing-dash stripping distributes over an append whose second part
contains a non-dash character. -/
theorem dropTrail_append_of_nodash (x y : List Char) (c : Char)
    (hc : c ∈ y) (hne : c ≠ '-') :
    dropTrail (x ++ y) = x ++ dropTrail y := by
  unfold dropTrail
  have h1 : y.reverse.dropWhile (fun d => d = '-') ≠ [] := by
    intro h
    have := List.dropWhile_eq_nil_iff.mp h c (List.mem_reverse.mpr hc)
    exact hne (by simpa using this)
  rw [List.reverse_append, dropWhile_append_ne_nil _ _ _ h1, List.reverse_append,
    List.reverse_reverse]

/-- Trailing-dash stripping removes a final dash. -/
theorem dropTrail_append_dash (x : List Char) :
    dropTrail (x ++ ['-']) = dropTrail x := by
  unfold dropTrail
  rw [List.reverse_append]
  rfl

/-- Core equivalence on lists with a safe head: the substitution-then-strip
result equals the dash-join of the maximal safe runs. -/
theorem dropTrail_subDash :
    ∀ (n : Nat) (l : List Char), l.length ≤ n → headSafe l →
      dropTrail (subDash l) = joinDash (specTokens l) := by
  intro n
  induction n with
  | zero =>
    intro l hl _
    have : l = [] := List.length_eq_zero.mp (Nat.le_zero.mp hl)
    subst this; rfl
  | succ n ih =>
    intro l hl hs
    match l with
    | [] => rfl
    | c :: cs =>
      have hc : lowerSafe c = true := hs c rfl
      have hAllRun : ∀ x ∈ cs.takeWhile lowerSafe, lowerSafe x = true :=
        fun x hx => List.mem_takeWhile_imp hx
      have h1 : subDash (c :: cs) = c :: subDash cs := subDash_cons_safe _ hc
      have h2 : subDash cs = cs.takeWhile lowerSafe ++ subDash (cs.dropWhile lowerSafe) := by
        conv_lhs => rw [← List.takeWhile_append_dropWhile (p := lowerSafe) (l := cs)]
        exact subDash_safe_append _ _ hAllRun
      have htok : specTokens (c :: cs) =
          (c :: cs.takeWhile lowerSafe) :: specTokens (cs.dropWhile lowerSafe) :=
        specTokens_cons_safe _ hc
      have hcslen : cs.length ≤ n := by simpa using hl
      cases hR : cs.dropWhile lowerSafe with
      | nil =>
        rw [h1, h2, hR, htok, hR]
        show dropTrail (c :: (cs.takeWhile lowerSafe ++ subDash [])) =
          joinDash [c :: cs.takeWhile lowerSafe]
        have : subDash [] = [] := rfl
        rw [this, List.append_nil]
        rw [dropTrail_no_dash]
        · rfl
        · intro x hx
          rcases List.mem_cons.mp hx with h | h
          · exact h ▸ safe_ne_dash hc
          · exact safe_ne_dash (hAllRun x h)
      | cons d ds =>
        have hd : lowerSafe d = false :=
          headBad_dropWhile_safe cs d (by rw [hR]; rfl)
        have h3 : subDash (d :: ds) = '-' :: subDash (ds.dropWhile (fun x => ! lowerSafe x)) :=
          subDash_cons_bad _ hd
        have hds : headSafe (ds.dropWhile (fun x => ! lowerSafe x)) := headSafe_dropWhile_bad ds
        have hlen : (ds.dropWhile (fun x => ! lowerSafe x)).length ≤ n := by
          have e1 := lenDropWhileLe (fun x => ! lowerSafe x) ds
          have e2 := lenDropWhileLe lowerSafe cs
          rw [hR] at e2
          simp only [List.length_cons] at e2
          omega
        have IH := ih (ds.dropWhile (fun x => ! lowerSafe x)) hlen hds
        have htokRest : specTokens (d :: ds) =
            specTokens (ds.dropWhile (fun x => ! lowerSafe x)) := by
          rw [specTokens_cons_bad _ hd, specTokens_dropWhile_bad]
        rw [h1, h2, hR, h3, htok, hR, htokRest]
        cases hD : ds.dropWhile (fun x => ! lowerSafe x) with
        | nil =>
          show dropTrail (c :: (cs.takeWhile lowerSafe ++ '-' :: subDash [])) =
            joinDash ((c :: cs.takeWhile lowerSafe) :: specTokens [])
          have hsd : subDash ([] : List Char) = [] := rfl
          rw [hsd]
          have : c :: (cs.takeWhile lowerSafe ++ ['-']) =
              (c :: cs.takeWhile lowerSafe) ++ ['-'] := by simp
          rw [this, dropTrail_append_dash]
          rw [dropTrail_no_dash]
          · rfl
          · intro x hx
            rcases List.mem_cons.mp hx with h | h
            · exact h ▸ safe_ne_dash hc
            · exact safe_ne_dash (hAllRun x h)
        | cons e es =>
          have he : lowerSafe e = true := by
            have hhs := headSafe_dropWhile_bad ds
            rw [hD] at hhs
            exact hhs e rfl
          have h4 : subDash (e :: es) = e :: subDash es := subDash_cons_safe _ he
          have hmem : e ∈ subDash (e :: es) := by rw [h4]; simp
          have hassoc : c :: (cs.takeWhile lowerSafe ++ '-' :: subDash (e :: es)) =
              ((c :: cs.takeWhile lowerSafe) ++ ['-']) ++ subDash (e :: es) := by simp
          rw [hassoc, dropTrail_append_of_nodash _ _ e hmem (safe_ne_dash he)]
          rw [hD] at IH
          rw [IH]
          have htokE : specTokens (e :: es) =
              (e :: es.takeWhile lowerSafe) :: specTokens (es.dropWhile lowerSafe) :=
            specTokens_cons_safe _ he
          rw [htokE]
          show (c :: cs.takeWhile lowerSafe) ++ ['-'] ++
              joinDash ((e :: es.takeWhile lowerSafe) :: specTokens (es.dropWhile lowerSafe)) =
            joinDash ((c :: cs.takeWhile lowerSafe) :: (e :: es.takeWhile lowerSafe) ::
              specTokens (es.dropWhile lowerSafe))
          simp [joinDash]

/-- The substitution-then-strip sanitization equals the dash-join of the
maximal safe runs, on every char list. -/
theorem stripDash_subDash (l : List Char) :
    stripDash (subDash l) = joinDash (specTokens l) := by
  unfold stripDash
  cases l with
  | nil => rfl
  | cons c cs =>
    by_cases hc : lowerSafe c = true
    · have h1 : subDash (c :: cs) = c :: subDash cs := subDash_cons_safe _ hc
      have h2 : (subDash (c :: cs)).dropWhile (fun x => x = '-') = subDash (c :: cs) := by
        rw [h1]
        simp [List.dropWhile_cons, safe_ne_dash hc]
      rw [h2]
      exact dropTrail_subDash (c :: cs).length _ (Nat.le_refl _)
        (fun x hx => by simp at hx; exact hx ▸ hc)
    · simp only [Bool.not_eq_true] at hc
      have h1 : subDash (c :: cs) = '-' :: subDash (cs.dropWhile (fun d => ! lowerSafe d)) :=
        subDash_cons_bad _ hc
      have hds := headSafe_dropWhile_bad cs
      have h2 : (subDash (cs.dropWhile (fun d => ! lowerSafe d))).dropWhile (fun x => x = '-') =
          subDash (cs.dropWhile (fun d => ! lowerSafe d)) := by
        cases hE : cs.dropWhile (fun d => ! lowerSafe d) with
        | nil => rfl
        | cons e es =>
          have he : lowerSafe e = true := by
            rw [hE] at hds
            exact hds e rfl
          rw [subDash_cons_safe _ he]
          simp [List.dropWhile_cons, safe_ne_dash he]
      have h3 : ('-' :: subDash (cs.dropWhile (fun d => ! lowerSafe d))).dropWhile
          (fun x => x = '-') =
          (subDash (cs.dropWhile (fun d => ! lowerSafe d))).dropWhile (fun x => x = '-') := by
        simp [List.dropWhile_cons]
      rw [h1, h3, h2]
      rw [dropTrail_subDash (cs.dropWhile (fun d => ! lowerSafe d)).length _ (Nat.le_refl _) hds]
      rw [specTokens_dropWhile_bad, specTokens_cons_bad _ hc]

/-- The source sanitization equals the spec-worded sanitization. -/
theorem sanitize_eq_spec (name : String) : sanitize_filename name = sanitizeSpec name := by
  unfold sanitize_filename sanitizeSpec
  rw [stripDash_subDash]

/-- String append acts as append on the underlying char lists. -/
theorem dataAppend (s t : String) : (s ++ t).data = s.data ++ t.data := by
  cases s; cases t; rfl

/-- Strings with equal char lists are equal. -/
theorem strExt {s t : String} (h : s.data = t.data) : s = t := by
  cases s; cases t; congr 1

/-- On a name with no safe character at all, substitution-then-strip leaves
nothing. -/
theorem stripDash_subDash_all_bad (m : List Char) (h : ∀ c ∈ m, lowerSafe c = false) :
    stripDash (subDash m) = [] := by
  cases m with
  | nil => rfl
  | cons c cs =>
    have hc := h c (by simp)
    have hdw : cs.dropWhile (fun d => ! lowerSafe d) = [] :=
      List.dropWhile_eq_nil_iff.mpr (fun x hx => by simp [h x (by simp [hx])])
    rw [subDash_cons_bad _ hc, hdw]
    rfl

/-- Claim C9: the written filename is the zero-padded 1-based order index
(two digits whenever at most 99 sections exist), a dash, and the sanitized
name, where sanitization lowercases, collapses each maximal run outside
[a-z0-9] to a single dash, and trims leading and trailing dashes (stated
through the spec-worded sanitizer). -/
theorem C9_filename_construction (i : Nat) (name : String) :
    outFilename i name = pyFmt02 i ++ "-" ++ sanitizeSpec name ++ ".md" ∧
    (1 ≤ i → i ≤ 99 →
      (pyFmt02 i).length = 2 ∧ (∀ c ∈ (pyFmt02 i).data, c.isDigit = true)) := by
  constructor
  · unfold outFilename
    rw [sanitize_eq_spec]
  · intro h1 h2
    have hdig : ∀ j, j < 100 → 1 ≤ j →
        ((pyFmt02 j).length = 2 ∧ ∀ c ∈ (pyFmt02 j).data, c.isDigit = true) := by decide
    exact hdig i (by omega) h1

/-- Claim C9 (witness): a concrete index and section name. -/
theorem C9_filename_construction_witness :
    (1 ≤ 3 ∧ 3 ≤ 99) ∧
    (outFilename 3 "Hello, World!" = pyFmt02 3 ++ "-" ++ sanitizeSpec "Hello, World!" ++ ".md" ∧
     ((pyFmt02 3).length = 2 ∧ (∀ c ∈ (pyFmt02 3).data, c.isDigit = true))) :=
  ⟨⟨by decide, by decide⟩,
   (C9_filename_construction 3 "Hello, World!").1,
   (C9_filename_construction 3 "Hello, World!").2 (by decide) (by decide)⟩

/-- Claim C10: a section name whose lowercasing has no character in
[a-z0-9] sanitizes to the empty string, so its file is named by the order
index followed by a bare dash and the extension, and any two such names
yield the same filename at the same index. -/
theorem C10_empty_sanitize (name : String) (i : Nat)
    (h : ∀ c ∈ name.data.map Char.toLower, lowerSafe c = false) :
    sanitize_filename name = "" ∧
    outFilename i name = pyFmt02 i ++ "-.md" ∧
    (∀ name2 : String, (∀ c ∈ name2.data.map Char.toLower, lowerSafe c = false) →
      outFilename i name2 = outFilename i name) := by
  have hempty : ∀ m : String, (∀ c ∈ m.data.map Char.toLower, lowerSafe c = false) →
      sanitize_filename m = "" := by
    intro m hm
    unfold sanitize_filename
    rw [stripDash_subDash_all_bad _ hm]
  have h1 := hempty name h
  refine ⟨h1, ?_, ?_⟩
  · unfold outFilename
    apply strExt
    rw [h1, dataAppend, dataAppend, dataAppend]
    have e0 : ("" : String).data = [] := by decide
    have e1 : ("-" : String).data ++ (".md" : String).data = ("-.md" : String).data := by decide
    rw [e0, List.append_nil, List.append_assoc, e1, dataAppend]
  · intro name2 h2
    unfold outFilename
    rw [h1, hempty name2 h2]

/-- Claim C10 (witness): a punctuation-only heading gives the bare-dash
filename, concretely 01-.md at index 1. -/
theorem C10_empty_sanitize_witness :
    (∀ c ∈ ("!!!" : String).data.map Char.toLower, lowerSafe c = false) ∧
    (sanitize_filename "!!!" = "" ∧
     outFilename 1 "!!!" = pyFmt02 1 ++ "-.md" ∧
     (∀ name2 : String, (∀ c ∈ name2.data.map Char.toLower, lowerSafe c = false) →
       outFilename 1 name2 = outFilename 1 "!!!")) :=
  ⟨by decide, C10_empty_sanitize "!!!" 1 (by decide)⟩


/-! Case-analysis lemmas for the convergence loop. -/

/-- The state carried by a step outcome. -/
def stepSt : StepRes → St
  | .fatal st => st
  | .brk st => st
  | .cont st => st

/-- The state carried by a loop outcome. -/
def runResSt : RunRes → St
  | .aborted st => st
  | .finished st => st

/-- Recording with the approval phrase present ends the loop. -/
theorem recordRound_eq_brk (env : Env) (n : Nat) (result : String) (st : St)
    (h : containsStr approvalPhrase result = true) :
    recordRound env n result st = .brk { st with
      files := putFile st.files n (roundHeaderN env n ++ result ++ "\n")
      log := st.log ++ [(n, result)]
      lastResult := result } := by
  unfold recordRound
  simp [h]

/-- Recording without the approval phrase continues the loop. -/
theorem recordRound_eq_cont (env : Env) (n : Nat) (result : String) (st : St)
    (h : containsStr approvalPhrase result = false) :
    recordRound env n result st = .cont { st with
      prevIssues := count_issues result
      files := putFile st.files n (roundHeaderN env n ++ result ++ "\n")
      log := st.log ++ [(n, result)]
      lastResult := result } := by
  unfold recordRound
  simp [h]

/-- The later-round body either aborts (missing revision or a fallback
timeout) or records a result that came from the continuation invocation
(when non-empty) or otherwise from the one fresh retry. -/
theorem laterBody_cases (env : Env) (n : Nat) (st : St) :
    laterBody env n st = .fatal st ∨
    (∃ rev result, env.readRevised n = some rev ∧
      laterBody env n st = recordRound env n result st ∧
      ((env.invoke n (buildResumePrompt rev) true = .output result ∧ result ≠ "") ∨
       (env.invoke n (buildResumePrompt rev) false = .output result ∧
        (env.invoke n (buildResumePrompt rev) true = .timeout ∨
         env.invoke n (buildResumePrompt rev) true = .output "")))) := by
  unfold laterBody
  cases hrev : env.readRevised n with
  | none => exact Or.inl rfl
  | some rev =>
    simp only []
    cases hres : env.invoke n (buildResumePrompt rev) true with
    | timeout =>
      cases hfr : env.invoke n (buildResumePrompt rev) false with
      | timeout => exact Or.inl (by simp [hfr])
      | output s =>
        exact Or.inr ⟨rev, s, rfl, by simp [hfr], Or.inr ⟨hfr, Or.inl hres⟩⟩
    | output s0 =>
      by_cases hs0 : s0 = ""
      · subst hs0
        cases hfr : env.invoke n (buildResumePrompt rev) false with
        | timeout => exact Or.inl (by simp [hfr])
        | output s =>
          exact Or.inr ⟨rev, s, rfl, by simp [hfr], Or.inr ⟨hfr, Or.inr hres⟩⟩
      · exact Or.inr ⟨rev, s0, rfl, by simp [hs0], Or.inl ⟨hres, hs0⟩⟩

/-- Shape of one round body, as needed for the approval argument: abort,
break with untouched log, break appending an approving entry whose result
is the final one, or continue appending a non-approving entry (round 1
excepted, whose entry is never checked for approval). -/
theorem stepRound_shape (env : Env) (cfg : Config) (n : Nat) (st : St) :
    (∃ st1, stepRound env cfg n st = .fatal st1 ∧ st1.log = st.log) ∨
    (∃ st1, stepRound env cfg n st = .brk st1 ∧ st1.log = st.log ∧
      st1.lastResult = st.lastResult) ∨
    (∃ result st1, stepRound env cfg n st = .brk st1 ∧
      st1.log = st.log ++ [(n, result)] ∧ st1.lastResult = result ∧
      containsStr approvalPhrase result = true) ∨
    (∃ result st1, stepRound env cfg n st = .cont st1 ∧
      st1.log = st.log ++ [(n, result)] ∧ st1.lastResult = result ∧
      (n = 1 ∨ containsStr approvalPhrase result = false)) := by
  unfold stepRound
  by_cases hn : n = 1
  · subst hn
    rw [if_pos rfl]
    unfold round1Step
    cases env.invoke 1 (buildPrompt1 env.reviewPrompt env.sectionContent) false with
    | timeout => exact Or.inl ⟨st, rfl, rfl⟩
    | output r =>
      exact Or.inr (Or.inr (Or.inr ⟨r, { st with
        prevIssues := count_issues r
        lastResult := r
        files := putFile st.files 1 (round1Header env ++ r ++ "\n")
        log := st.log ++ [(1, r)] }, rfl, rfl, rfl, Or.inl rfl⟩))
  · rw [if_neg hn]
    have afterWait : ∀ st1 : St, st1.log = st.log → st1.lastResult = st.lastResult →
        (∃ st2, laterBody env n st1 = .fatal st2 ∧ st2.log = st.log) ∨
        (∃ result st2, laterBody env n st1 = .brk st2 ∧
          st2.log = st.log ++ [(n, result)] ∧ st2.lastResult = result ∧
          containsStr approvalPhrase result = true) ∨
        (∃ result st2, laterBody env n st1 = .cont st2 ∧
          st2.log = st.log ++ [(n, result)] ∧ st2.lastResult = result ∧
          (n = 1 ∨ containsStr approvalPhrase result = false)) := by
      intro st1 hlog hlast
      rcases laterBody_cases env n st1 with h | ⟨rev, result, hrev, heq, _⟩
      · exact Or.inl ⟨st1, h, hlog⟩
      · by_cases happ : containsStr approvalPhrase result = true
        · rw [recordRound_eq_brk _ _ _ _ happ] at heq
          exact Or.inr (Or.inl ⟨result, _, heq, by simp [hlog], rfl, happ⟩)
        · have happ2 : containsStr approvalPhrase result = false := by simpa using happ
          rw [recordRound_eq_cont _ _ _ _ happ2] at heq
          exact Or.inr (Or.inr ⟨result, _, heq, by simp [hlog], rfl, Or.inr happ2⟩)
    unfold laterStep
    by_cases hi : cfg.interactive = true
    · rw [if_pos hi]
      by_cases hq : uiQuit (env.userInput n) = true
      · rw [if_pos hq]
        exact Or.inr (Or.inl ⟨{ st with waits := st.waits ++ [n] }, rfl, rfl, rfl⟩)
      · rw [if_neg hq]
        rcases afterWait { st with waits := st.waits ++ [n] } rfl rfl with
          ⟨st2, heq, hl⟩ | ⟨result, st2, heq, hl, hlast, happ⟩ |
            ⟨result, st2, heq, hl, hlast, hor⟩
        · exact Or.inl ⟨st2, heq, hl⟩
        · exact Or.inr (Or.inr (Or.inl ⟨result, st2, heq, hl, hlast, happ⟩))
        · exact Or.inr (Or.inr (Or.inr ⟨result, st2, heq, hl, hlast, hor⟩))
    · rw [if_neg hi]
      rcases afterWait st rfl rfl with
        ⟨st2, heq, hl⟩ | ⟨result, st2, heq, hl, hlast, happ⟩ |
          ⟨result, st2, heq, hl, hlast, hor⟩
      · exact Or.inl ⟨st2, heq, hl⟩
      · exact Or.inr (Or.inr (Or.inl ⟨result, st2, heq, hl, hlast, happ⟩))
      · exact Or.inr (Or.inr (Or.inr ⟨result, st2, heq, hl, hlast, hor⟩))

/-- Loop invariant for the approval argument: when every logged entry of a
round after the first is so far non-approving, at loop end every approving
such entry is the final entry and its result is the final result. -/
theorem runFrom_approval (env : Env) (cfg : Config) :
    ∀ (rounds : List Nat) (st : St),
      (∀ p ∈ st.log, 2 ≤ p.1 → containsStr approvalPhrase p.2 = false) →
      ∀ st1, runFrom env cfg rounds st = .finished st1 →
        (∀ p ∈ st1.log.dropLast, 2 ≤ p.1 → containsStr approvalPhrase p.2 = false) ∧
        (∀ p : Nat × String, st1.log.getLast? = some p → 2 ≤ p.1 →
          containsStr approvalPhrase p.2 = true →
          containsStr approvalPhrase st1.lastResult = true) := by
  intro rounds
  induction rounds with
  | nil =>
    intro st hInv st1 hrun
    have hst : st = st1 := by simpa [runFrom] using hrun
    subst hst
    refine ⟨fun p hp h2 => hInv p (List.dropLast_subset _ hp) h2, fun p hp h2 happ => ?_⟩
    exact absurd happ (by simp [hInv p (List.mem_of_mem_getLast? hp) h2])
  | cons m rest ih =>
    intro st hInv st1 hrun
    rw [runFrom] at hrun
    rcases stepRound_shape env cfg m st with
      ⟨st2, hstep, _⟩ | ⟨st2, hstep, hlg, _⟩ |
        ⟨result, st2, hstep, hlg, hlast, happ⟩ | ⟨result, st2, hstep, hlg, hlast, hor⟩
    · rw [hstep] at hrun
      exact absurd hrun (by simp)
    · rw [hstep] at hrun
      have hst : st2 = st1 := by simpa using hrun
      subst hst
      rw [hlg]
      refine ⟨fun p hp h2 => hInv p (List.dropLast_subset _ hp) h2, fun p hp h2 happ2 => ?_⟩
      exact absurd happ2 (by simp [hInv p (List.mem_of_mem_getLast? hp) h2])
    · rw [hstep] at hrun
      have hst : st2 = st1 := by simpa using hrun
      subst hst
      constructor
      · rw [hlg, List.dropLast_concat]
        exact fun p hp h2 => hInv p hp h2
      · intro p hp _ _
        rw [hlast, happ]
    · rw [hstep] at hrun
      refine ih st2 ?_ st1 hrun
      intro p hp h2
      rw [hlg] at hp
      rcases List.mem_append.mp hp with h | h
      · exact hInv p h h2
      · have hpm : p = (m, result) := by simpa using h
        rcases hor with h1 | hf
        · exact absurd h2 (by simp [hpm, h1])
        · rw [hpm]
          exact hf

/-- Claim C2 (counterexample): with the approval phrase in round 1's output
and two rounds configured, round 2 still executes and the summary's
approved flag is false, so the short circuit does not cover round 1. -/
theorem C2_approval_counterexample :
    (resLog (mainRun envApproveRound1 cfgTwoRounds [])).map Prod.fst = [1, 2] ∧
    containsStr approvalPhrase
      (((resLog (mainRun envApproveRound1 cfgTwoRounds [])).map Prod.snd).headD "") = true ∧
    resApproved (mainRun envApproveRound1 cfgTwoRounds []) = some false := by decide

/-- Claim C2 (amended): for every round at least 2 whose output contains
the approval phrase, no later round executes (the approving entry is the
last recorded one) and the summary's approved flag is true; round 1's
output is never checked for approval. -/
theorem C2_approval_short_circuit (env : Env) (cfg : Config)
    (initFiles pre post : List (Nat × String)) (n : Nat) (r : String)
    (st1 : St) (sm : Summary)
    (hrun : mainRun env cfg initFiles = .completed st1 sm)
    (hlog : st1.log = pre ++ (n, r) :: post)
    (hn : 2 ≤ n) (hr : containsStr approvalPhrase r = true) :
    post = [] ∧ sm.approved = true := by
  unfold mainRun at hrun
  rcases hR : runFrom env cfg (roundsToRun cfg) (initSt cfg initFiles) with st2 | st2
  · rw [hR] at hrun
    exact absurd hrun (by simp)
  · rw [hR] at hrun
    injection hrun with h1 h2
    subst h1
    have hpre := runFrom_approval env cfg (roundsToRun cfg) (initSt cfg initFiles)
      (by simp [initSt]) st2 hR
    have hpost : post = [] := by
      rcases List.eq_nil_or_concat post with hpe | ⟨q, y, hq⟩
      · exact hpe
      · exfalso
        subst hq
        have hdl : st2.log.dropLast = pre ++ (n, r) :: q := by
          rw [hlog,
            show pre ++ (n, r) :: q.concat y = (pre ++ (n, r) :: q) ++ [y] by simp]
          exact List.dropLast_concat
        have hmem : (n, r) ∈ st2.log.dropLast := by
          rw [hdl]; simp
        have hfalse := hpre.1 (n, r) hmem hn
        rw [hr] at hfalse
        exact absurd hfalse (by decide)
    subst hpost
    have hgl : st2.log.getLast? = some (n, r) := by
      rw [hlog]
      exact List.getLast?_concat pre
    have happ := hpre.2 (n, r) hgl hn hr
    refine ⟨rfl, ?_⟩
    rw [← h2]
    simp [mkSummary, happ]

/-- The approval phrase line emitted by the reviewer stubs. -/
def aprStr : String := "✅ SECTION APPROVED — no critical or warning issues remain."

/-- A reviewer stub that approves in round 2. -/
def envApproveRound2 : Env :=
  { reviewPrompt := "p", sectionContent := "s", sectionBasename := "b", reviewType := "a"
    now := fun _ => "t"
    invoke := fun n _ _ => if n = 1 then .output "🔴 x" else .output aprStr
    readRevised := fun _ => some "rev"
    userInput := fun _ => some "" }

/-- Three full rounds, non-interactive. -/
def cfgThreeRounds : Config := { maxRounds := 3, singleRound := none, interactive := false }

/-- The final state of the round-2 approval scenario. -/
def stW2 : St :=
  { prevIssues := 1
    lastResult := aprStr
    files := [(1, "# Iteration Round 1: Initial Review\n**Section**: b\n**Review type**: a\n**Date**: t\n\n🔴 x\n"),
              (2, "# Iteration Round 2\n**Date**: t\n\n" ++ aprStr ++ "\n")]
    log := [(1, "🔴 x"), (2, aprStr)]
    waits := [] }

/-- The summary of the round-2 approval scenario. -/
def summaryW2 : Summary := { approved := true, records := [(1, 1), (2, 0)] }

/-- Claim C2 (witness): a round-2 approval at a concrete input ends the
loop with the approving entry last and approved set. -/
theorem C2_approval_short_circuit_witness :
    (mainRun envApproveRound2 cfgThreeRounds [] = .completed stW2 summaryW2 ∧
      stW2.log = [(1, "🔴 x")] ++ (2, aprStr) :: [] ∧
      2 ≤ 2 ∧ containsStr approvalPhrase aprStr = true) ∧
    (([] : List (Nat × String)) = [] ∧ summaryW2.approved = true) :=
  ⟨⟨by decide, by decide, by decide, by decide⟩,
   C2_approval_short_circuit envApproveRound2 cfgThreeRounds [] [(1, "🔴 x")] [] 2 aprStr
     stW2 summaryW2 (by decide) (by decide) (by decide) (by decide)⟩

/-! Lemmas about the interactive wait, for claim C4. -/

/-- Recording a round leaves the wait log unchanged. -/
theorem stepSt_recordRound_waits (env : Env) (n : Nat) (result : String) (st : St) :
    (stepSt (recordRound env n result st)).waits = st.waits := by
  simp only [recordRound]
  split <;> rfl

/-- The later-round body after the wait leaves the wait log unchanged. -/
theorem stepSt_laterBody_waits (env : Env) (n : Nat) (st : St) :
    (stepSt (laterBody env n st)).waits = st.waits := by
  simp only [laterBody]
  cases env.readRevised n with
  | none => rfl
  | some rev =>
    simp only []
    split
    · rfl
    · exact stepSt_recordRound_waits env n _ st

/-- Round 1 leaves the wait log unchanged. -/
theorem stepSt_round1_waits (env : Env) (st : St) :
    (stepSt (round1Step env st)).waits = st.waits := by
  simp only [round1Step]
  cases env.invoke 1 (buildPrompt1 env.reviewPrompt env.sectionContent) false <;> rfl

/-- One round touches the wait log exactly when interactive mode is on and
the round is not the first; then it records this one wait. -/
theorem stepRound_waits (env : Env) (cfg : Config) (n : Nat) (st : St) :
    (stepSt (stepRound env cfg n st)).waits =
      if cfg.interactive = true ∧ n ≠ 1 then st.waits ++ [n] else st.waits := by
  unfold stepRound
  by_cases hn : n = 1
  · subst hn
    rw [if_pos rfl, stepSt_round1_waits, if_neg (by simp)]
  · rw [if_neg hn]
    unfold laterStep
    by_cases hi : cfg.interactive = true
    · rw [if_pos hi, if_pos (show cfg.interactive = true ∧ n ≠ 1 from ⟨hi, hn⟩)]
      by_cases hq : uiQuit (env.userInput n) = true
      · rw [if_pos hq]
        rfl
      · rw [if_neg hq, stepSt_laterBody_waits]
    · rw [if_neg hi, stepSt_laterBody_waits,
        if_neg (show ¬(cfg.interactive = true ∧ n ≠ 1) from fun h => hi h.1)]

/-- In single-round mode the observable wait log is that of the one round. -/
theorem resWaits_single (env : Env) (cfg : Config) (n : Nat)
    (initFiles : List (Nat × String)) (hs : cfg.singleRound = some n) :
    resWaits (mainRun env cfg initFiles) =
      (stepSt (stepRound env cfg n (initSt cfg initFiles))).waits := by
  unfold mainRun roundsToRun
  rw [hs]
  cases hstep : stepRound env cfg n (initSt cfg initFiles) with
  | fatal st1 => simp [runFrom, hstep, stepSt, resWaits]
  | brk st1 => simp [runFrom, hstep, stepSt, resWaits]
  | cont st1 => simp [runFrom, hstep, stepSt, resWaits]

/-- Claim C4 (counterexample): in single-round external-control mode for
round 2 with interactive mode enabled, the interactive wait is performed. -/
theorem C4_single_round_wait_counterexample :
    cfgSingle2Interactive.singleRound = some 2 ∧
    resWaits (mainRun envPlain cfgSingle2Interactive []) = [2] := by decide

/-- Claim C4 (amended): in single-round mode the wait follows the same rule
as a full run: it is skipped exactly when interactive mode is off or the
explicit round is 1, and performed once otherwise. -/
theorem C4_single_round_wait_amended :
    (∀ (env : Env) (cfg : Config) (n : Nat) (initFiles : List (Nat × String)),
      cfg.singleRound = some n → (cfg.interactive = false ∨ n = 1) →
      resWaits (mainRun env cfg initFiles) = []) ∧
    (∀ (env : Env) (cfg : Config) (n : Nat) (initFiles : List (Nat × String)),
      cfg.singleRound = some n → cfg.interactive = true → n ≠ 1 →
      resWaits (mainRun env cfg initFiles) = [n]) := by
  constructor
  · intro env cfg n initFiles hs hcond
    rw [resWaits_single env cfg n initFiles hs, stepRound_waits]
    have hno : ¬(cfg.interactive = true ∧ n ≠ 1) := by
      rcases hcond with h | h
      · intro hc; rw [h] at hc; exact absurd hc.1 (by decide)
      · intro hc; exact hc.2 h
    rw [if_neg hno]
    rfl
  · intro env cfg n initFiles hs hi hn
    rw [resWaits_single env cfg n initFiles hs, stepRound_waits,
      if_pos (show cfg.interactive = true ∧ n ≠ 1 from ⟨hi, hn⟩)]
    rfl

/-- Non-interactive single-round mode for round 2. -/
def cfgSingle2NonInteractive : Config :=
  { maxRounds := 3, singleRound := some 2, interactive := false }

/-- Claim C4 (witness): concrete single-round runs with and without
interactive mode. -/
theorem C4_single_round_wait_witness :
    (cfgSingle2NonInteractive.singleRound = some 2 ∧
      cfgSingle2NonInteractive.interactive = false) ∧
    resWaits (mainRun envPlain cfgSingle2NonInteractive []) = [] ∧
    resWaits (mainRun envPlain cfgSingle2Interactive []) = [2] :=
  ⟨⟨by decide, by decide⟩,
   C4_single_round_wait_amended.1 envPlain cfgSingle2NonInteractive 2 [] (by decide)
     (Or.inl (by decide)),
   C4_single_round_wait_amended.2 envPlain cfgSingle2Interactive 2 [] (by decide)
     (by decide) (by decide)⟩

/-- Claim C3 (counterexample): when the round-2 continuation invocation
times out and the fresh retry also times out, the loop aborts with no
summary and nothing recorded for round 2, instead of recording an empty
result and continuing. -/
theorem C3_timeout_counterexample :
    resIsCompleted (mainRun envDoubleTimeout cfgTwoRounds []) = false ∧
    (resLog (mainRun envDoubleTimeout cfgTwoRounds [])).map Prod.fst = [1] := by decide

/-- Claim C3 (amended): a round-1 timeout aborts the run before anything is
recorded; on a later round a continuation timeout triggers one fresh
retry: if the retry also times out the run aborts, while if it returns
output (possibly empty) the round records that output and the loop goes
on. -/
theorem C3_timeout_semantics (env : Env) (cfg : Config) :
    (cfg.singleRound = none → 1 ≤ cfg.maxRounds →
      env.invoke 1 (buildPrompt1 env.reviewPrompt env.sectionContent) false = .timeout →
      ∀ initFiles, resIsCompleted (mainRun env cfg initFiles) = false ∧
        resLog (mainRun env cfg initFiles) = []) ∧
    (∀ n st rev, 2 ≤ n → cfg.interactive = false → env.readRevised n = some rev →
      env.invoke n (buildResumePrompt rev) true = .timeout →
      env.invoke n (buildResumePrompt rev) false = .timeout →
      stepRound env cfg n st = .fatal st) ∧
    (∀ n st rev s, 2 ≤ n → cfg.interactive = false → env.readRevised n = some rev →
      env.invoke n (buildResumePrompt rev) true = .timeout →
      env.invoke n (buildResumePrompt rev) false = .output s →
      ∃ st1, (stepRound env cfg n st = .brk st1 ∨ stepRound env cfg n st = .cont st1) ∧
        st1.log = st.log ++ [(n, s)] ∧ st1.lastResult = s) := by
  refine ⟨?_, ?_, ?_⟩
  · intro hs hmax htime initFiles
    obtain ⟨k, hk⟩ : ∃ k, cfg.maxRounds = k + 1 := ⟨cfg.maxRounds - 1, by omega⟩
    have hround : roundsToRun cfg = 1 :: List.range' 2 k := by
      unfold roundsToRun
      rw [hs, hk]
      rfl
    have hstep : stepRound env cfg 1 (initSt cfg initFiles) = .fatal (initSt cfg initFiles) := by
      unfold stepRound
      rw [if_pos rfl]
      unfold round1Step
      rw [htime]
    unfold mainRun
    rw [hround, runFrom, hstep]
    exact ⟨rfl, rfl⟩
  · intro n st rev h2 hint hrev ht hf
    unfold stepRound
    rw [if_neg (by omega)]
    unfold laterStep
    rw [if_neg (by simp [hint])]
    unfold laterBody
    rw [hrev]
    simp [ht, hf]
  · intro n st rev s h2 hint hrev ht hf
    have hbody : stepRound env cfg n st = recordRound env n s st := by
      unfold stepRound
      rw [if_neg (by omega)]
      unfold laterStep
      rw [if_neg (by simp [hint])]
      unfold laterBody
      rw [hrev]
      simp [ht, hf]
    by_cases happ : containsStr approvalPhrase s = true
    · rw [hbody, recordRound_eq_brk _ _ _ _ happ]
      exact ⟨_, Or.inl rfl, rfl, rfl⟩
    · have happ2 : containsStr approvalPhrase s = false := by simpa using happ
      rw [hbody, recordRound_eq_cont _ _ _ _ happ2]
      exact ⟨_, Or.inr rfl, rfl, rfl⟩

/-- A reviewer stub that always times out. -/
def envRound1Timeout : Env :=
  { reviewPrompt := "p", sectionContent := "s", sectionBasename := "b", reviewType := "a"
    now := fun _ => "t"
    invoke := fun _ _ _ => .timeout
    readRevised := fun _ => some "rev"
    userInput := fun _ => some "" }

/-- A reviewer stub whose continuation invocations time out but whose fresh
invocations answer. -/
def envResumeTimeoutFreshOk : Env :=
  { reviewPrompt := "p", sectionContent := "s", sectionBasename := "b", reviewType := "a"
    now := fun _ => "t"
    invoke := fun _ _ resume => if resume then .timeout else .output "🟡 w"
    readRevised := fun _ => some "rev"
    userInput := fun _ => some "" }

/-- Claim C3 (witness): concrete runs for the three amended behaviors. -/
theorem C3_timeout_semantics_witness :
    (resIsCompleted (mainRun envRound1Timeout cfgTwoRounds []) = false ∧
      resLog (mainRun envRound1Timeout cfgTwoRounds []) = []) ∧
    stepRound envDoubleTimeout cfgTwoRounds 2 (initSt cfgTwoRounds []) =
      .fatal (initSt cfgTwoRounds []) ∧
    (∃ st1, (stepRound envResumeTimeoutFreshOk cfgTwoRounds 2 (initSt cfgTwoRounds []) = .brk st1 ∨
        stepRound envResumeTimeoutFreshOk cfgTwoRounds 2 (initSt cfgTwoRounds []) = .cont st1) ∧
      st1.log = (initSt cfgTwoRounds []).log ++ [(2, "🟡 w")] ∧ st1.lastResult = "🟡 w") :=
  ⟨(C3_timeout_semantics envRound1Timeout cfgTwoRounds).1 (by decide) (by decide) (by decide) [],
   (C3_timeout_semantics envDoubleTimeout cfgTwoRounds).2.1 2 (initSt cfgTwoRounds []) "rev"
     (by decide) (by decide) (by decide) (by decide) (by decide),
   (C3_timeout_semantics envResumeTimeoutFreshOk cfgTwoRounds).2.2 2 (initSt cfgTwoRounds [])
     "rev" "🟡 w" (by decide) (by decide) (by decide) (by decide) (by decide)⟩

/-! Lemmas about the directory of round files, for claim C6. -/

/-- The file just written is in the directory. -/
theorem putFile_mem_self (files : List (Nat × String)) (k : Nat) (a : String) :
    (k, a) ∈ putFile files k a := by
  induction files with
  | nil => simp [putFile]
  | cons p rest ih =>
    rcases p with ⟨m, b⟩
    by_cases h1 : k < m
    · simp [putFile, h1]
    · by_cases h2 : k = m
      · simp [putFile, h1, h2]
      · simp only [putFile, if_neg h1, if_neg h2]
        exact List.mem_cons_of_mem _ ih

/-- Writing one round's file keeps the files of the other rounds. -/
theorem putFile_mem_of_ne (files : List (Nat × String)) (k : Nat) (b : String)
    (n : Nat) (a : String) (h : (n, a) ∈ files) (hne : n ≠ k) :
    (n, a) ∈ putFile files k b := by
  induction files with
  | nil => simp at h
  | cons p rest ih =>
    rcases p with ⟨m, c⟩
    by_cases h1 : k < m
    · simp only [putFile, if_pos h1]
      exact List.mem_cons_of_mem _ h
    · by_cases h2 : k = m
      · simp only [putFile, if_neg h1, if_pos h2]
        rcases List.mem_cons.mp h with hh | hh
        · exfalso
          apply hne
          rw [h2]
          exact congrArg Prod.fst hh
        · exact List.mem_cons_of_mem _ hh
      · simp only [putFile, if_neg h1, if_neg h2]
        rcases List.mem_cons.mp h with hh | hh
        · exact hh ▸ List.mem_cons_self _ _
        · exact List.mem_cons_of_mem _ (ih hh)

/-- A written round artifact is never the empty string. -/
theorem concat_nl_ne_empty (x y : String) : x ++ y ++ "\n" ≠ "" := by
  intro h
  have hd := congrArg String.data h
  rw [dataAppend, dataAppend] at hd
  have e1 : (("\n" : String)).data = ['\n'] := by decide
  have e2 : (("" : String)).data = [] := by decide
  rw [e1, e2] at hd
  simp at hd

/-- The per-entry invariant of the fallback argument: every logged round
after the first recorded non-empty output, obtained from the fresh
invocation on that round's resume prompt, and has a non-empty file. -/
def fallbackProp (env : Env) (st : St) : Prop :=
  ∀ e ∈ st.log, 2 ≤ e.1 →
    e.2 ≠ "" ∧
    (∃ rev, env.readRevised e.1 = some rev ∧
      env.invoke e.1 (buildResumePrompt rev) false = .output e.2) ∧
    (∃ a, (e.1, a) ∈ st.files ∧ a ≠ "")

/-- The invariant depends only on the log and the files. -/
theorem fallbackProp_congr (env : Env) {st st1 : St}
    (hl : st1.log = st.log) (hf : st1.files = st.files)
    (h : fallbackProp env st) : fallbackProp env st1 := by
  intro e he h2
  rw [hl] at he
  obtain ⟨h1, h3, a, ha, hane⟩ := h e he h2
  exact ⟨h1, h3, a, hf ▸ ha, hane⟩

/-- Recording preserves the invariant when the recorded output itself
satisfies the per-entry property. -/
theorem recordRound_fallback (env : Env) (n : Nat) (result : String) (st : St)
    (hInv : fallbackProp env st)
    (hgood : 2 ≤ n → result ≠ "" ∧
      (∃ rev, env.readRevised n = some rev ∧
        env.invoke n (buildResumePrompt rev) false = .output result)) :
    fallbackProp env (stepSt (recordRound env n result st)) := by
  have hmain : ∀ st2 : St,
      st2.log = st.log ++ [(n, result)] →
      st2.files = putFile st.files n (roundHeaderN env n ++ result ++ "\n") →
      fallbackProp env st2 := by
    intro st2 hlog hfiles e he h2
    rw [hlog] at he
    rcases List.mem_append.mp he with h | h
    · obtain ⟨h1, h3, a, ha, hane⟩ := hInv e h h2
      refine ⟨h1, h3, ?_⟩
      by_cases hek : e.1 = n
      · exact ⟨roundHeaderN env n ++ result ++ "\n",
          by rw [hfiles, hek]; exact putFile_mem_self _ _ _, concat_nl_ne_empty _ _⟩
      · exact ⟨a, by rw [hfiles]; exact putFile_mem_of_ne _ _ _ _ _ ha hek, hane⟩
    · have he2 : e = (n, result) := by simpa using h
      subst he2
      obtain ⟨h1, h3⟩ := hgood h2
      exact ⟨h1, h3,
        ⟨roundHeaderN env n ++ result ++ "\n",
          by rw [hfiles]; exact putFile_mem_self _ _ _, concat_nl_ne_empty _ _⟩⟩
  by_cases happ : containsStr approvalPhrase result = true
  · rw [recordRound_eq_brk _ _ _ _ happ]
    exact hmain _ rfl rfl
  · rw [recordRound_eq_cont _ _ _ _ (by simpa using happ)]
    exact hmain _ rfl rfl

/-- One round preserves the fallback invariant under the stub hypotheses:
empty output on every continuation invocation, and non-empty output on
every fresh invocation. -/
theorem stepRound_fallback (env : Env) (cfg : Config)
    (hres : ∀ n p, env.invoke n p true = .output "")
    (hne : ∀ n p s, env.invoke n p false = .output s → s ≠ "")
    (n : Nat) (st : St) (hInv : fallbackProp env st) :
    fallbackProp env (stepSt (stepRound env cfg n st)) := by
  have hbody : ∀ st1 : St, st1.log = st.log → st1.files = st.files →
      fallbackProp env (stepSt (laterBody env n st1)) := by
    intro st1 hlog hfiles
    have hInv1 : fallbackProp env st1 := fallbackProp_congr env hlog hfiles hInv
    rcases laterBody_cases env n st1 with h | ⟨rev, result, hrev, heq, hcase⟩
    · rw [h]
      exact hInv1
    · rw [heq]
      refine recordRound_fallback env n result st1 hInv1 (fun _ => ?_)
      rcases hcase with ⟨hct, hcne⟩ | ⟨hcf, _⟩
      · exfalso
        rw [hres n (buildResumePrompt rev)] at hct
        exact hcne (by injection hct with h3; exact h3.symm)
      · exact ⟨hne n (buildResumePrompt rev) result hcf, rev, hrev, hcf⟩
  unfold stepRound
  by_cases hn : n = 1
  · subst hn
    rw [if_pos rfl]
    unfold round1Step
    cases env.invoke 1 (buildPrompt1 env.reviewPrompt env.sectionContent) false with
    | timeout => exact hInv
    | output r =>
      intro e he h2
      simp only [stepSt] at he ⊢
      rcases List.mem_append.mp he with h | h
      · obtain ⟨h1, h3, a, ha, hane⟩ := hInv e h h2
        refine ⟨h1, h3, a, ?_, hane⟩
        exact putFile_mem_of_ne _ _ _ _ _ ha (by omega)
      · exfalso
        have he2 : e = (1, r) := by simpa using h
        rw [he2] at h2
        omega
  · rw [if_neg hn]
    unfold laterStep
    by_cases hi : cfg.interactive = true
    · rw [if_pos hi]
      by_cases hq : uiQuit (env.userInput n) = true
      · rw [if_pos hq]
        exact fallbackProp_congr env rfl rfl hInv
      · rw [if_neg hq]
        exact hbody _ rfl rfl
    · rw [if_neg hi]
      exact hbody st rfl rfl

/-- The whole loop preserves the fallback invariant. -/
theorem runFrom_fallback (env : Env) (cfg : Config)
    (hres : ∀ n p, env.invoke n p true = .output "")
    (hne : ∀ n p s, env.invoke n p false = .output s → s ≠ "") :
    ∀ (rounds : List Nat) (st : St), fallbackProp env st →
      fallbackProp env (runResSt (runFrom env cfg rounds st)) := by
  intro rounds
  induction rounds with
  | nil =>
    intro st h
    exact h
  | cons m rest ih =>
    intro st h
    have hstep := stepRound_fallback env cfg hres hne m st h
    rw [runFrom]
    cases hs : stepRound env cfg m st with
    | fatal st1 =>
      rw [hs] at hstep
      exact hstep
    | brk st1 =>
      rw [hs] at hstep
      exact hstep
    | cont st1 =>
      rw [hs] at hstep
      exact ih st1 hstep

/-- Claim C6: with a reviewer stub that returns empty output under session
continuation and non-empty output when fresh, every recorded round after
the first holds the non-empty output of the fresh retry on that round's
resume prompt, and its persisted file is non-empty. -/
theorem C6_fallback_on_empty_resume (env : Env) (cfg : Config)
    (initFiles : List (Nat × String))
    (hres : ∀ n p, env.invoke n p true = .output "")
    (hne : ∀ n p s, env.invoke n p false = .output s → s ≠ "") :
    ∀ n r, (n, r) ∈ resLog (mainRun env cfg initFiles) → 2 ≤ n →
      r ≠ "" ∧
      (∃ rev, env.readRevised n = some rev ∧
        env.invoke n (buildResumePrompt rev) false = .output r) ∧
      (∃ a, (n, a) ∈ resFiles (mainRun env cfg initFiles) ∧ a ≠ "") := by
  have hbridgeL : resLog (mainRun env cfg initFiles) =
      (runResSt (runFrom env cfg (roundsToRun cfg) (initSt cfg initFiles))).log := by
    unfold mainRun
    cases runFrom env cfg (roundsToRun cfg) (initSt cfg initFiles) <;> rfl
  have hbridgeF : resFiles (mainRun env cfg initFiles) =
      (runResSt (runFrom env cfg (roundsToRun cfg) (initSt cfg initFiles))).files := by
    unfold mainRun
    cases runFrom env cfg (roundsToRun cfg) (initSt cfg initFiles) <;> rfl
  have hinv0 : fallbackProp env (initSt cfg initFiles) := by
    intro e he
    simp [initSt] at he
  have hfin := runFrom_fallback env cfg hres hne (roundsToRun cfg) (initSt cfg initFiles) hinv0
  intro n r hmem h2
  rw [hbridgeL] at hmem
  obtain ⟨h1, h3, hfile⟩ := hfin (n, r) hmem h2
  exact ⟨h1, h3, by rw [hbridgeF]; exact hfile⟩

/-- A reviewer stub with empty continuation output and a fixed non-empty
fresh output. -/
def envEmptyResume : Env :=
  { reviewPrompt := "p", sectionContent := "s", sectionBasename := "b", reviewType := "a"
    now := fun _ => "t"
    invoke := fun _ _ resume => if resume then .output "" else .output "🟡 fresh"
    readRevised := fun _ => some "rev"
    userInput := fun _ => some "" }

/-- Claim C6 (witness): round 2 of a concrete run with the stub records the
fresh output. -/
theorem C6_fallback_on_empty_resume_witness :
    ((2, "🟡 fresh") ∈ resLog (mainRun envEmptyResume cfgTwoRounds []) ∧ 2 ≤ 2) ∧
    ("🟡 fresh" : String) ≠ "" ∧
    (∃ rev, envEmptyResume.readRevised 2 = some rev ∧
      envEmptyResume.invoke 2 (buildResumePrompt rev) false = .output "🟡 fresh") ∧
    (∃ a, (2, a) ∈ resFiles (mainRun envEmptyResume cfgTwoRounds []) ∧ a ≠ "") :=
  ⟨⟨by decide, by decide⟩,
   C6_fallback_on_empty_resume envEmptyResume cfgTwoRounds [] (fun _ _ => rfl)
     (fun n p s h => by
       simp only [envEmptyResume, if_neg (by decide : ¬(false = true))] at h
       injection h with h3
       rw [← h3]
       decide)
     2 "🟡 fresh" (by decide) (by decide)⟩

end PlanReview
